import Mathlib

/-!
Shallow embedding of the repository file `strawberry/permission.py`.

The file defines two classes:
* `BasePermission` with a default `on_unauthorized` (builds an error from
  `error_class`, `message` and `error_extensions` and raises it) and a
  lazily memoized `schema_directive` property;
* `PermissionExtension`, a field extension holding an ordered list of
  permissions, with `apply` (directive attachment and fail-silently setup),
  `_on_unauthorized`, a synchronous `resolve`, an asynchronous
  `resolve_async`, and a cached `supports_sync` property.

Stateful or effectful pieces are embedded as explicit state passing:
resolution returns, next to its result, a trace of the observable calls it
made (permission checks, the wrapped resolver, `on_unauthorized`), and object
identity of lazily allocated directive objects is tracked with a counter.
-/

deriving instance DecidableEq for Except

namespace Strawberry

variable {V : Type}

/-- Python values that can flow through a field resolver in this model:
None, a list, or an opaque scalar value. -/
inductive PyValue where
  | pyNone
  | pyList (elems : List Int)
  | pyInt (n : Int)
deriving DecidableEq

/-- A GraphQL error object: a message and an optional extensions dictionary.
`none` models a missing or null dictionary, which Python treats as falsy. -/
structure GraphQLError (V : Type) where
  message : String
  extensions : Option (List (String × V))
deriving DecidableEq

/-- Exceptions the embedded code can raise: a GraphQL error coming from
`on_unauthorized`, or a Python `TypeError`. -/
inductive PyExc (V : Type) where
  | graphqlErr (e : GraphQLError V)
  | typeError (msg : String)
deriving DecidableEq

/-- Reading `d[k]` on a Python dict (`none` when the key is absent). -/
def dictLookup : List (String × V) → String → Option V
  | [], _ => none
  | kv :: rest, k => if kv.1 = k then some kv.2 else dictLookup rest k

/-- Writing `d[k] = v` on a Python dict: replace the value at an existing key
in place (the key keeps its position), otherwise append the new pair. -/
def dictInsert : List (String × V) → String → V → List (String × V)
  | [], k, v => [(k, v)]
  | kv :: rest, k, v =>
    if kv.1 = k then (k, v) :: rest else kv :: dictInsert rest k v

/-- Python `base.update(upd)`: insert every pair of `upd` into `base`, in
iteration order of `upd`. -/
def dictUpdate (base upd : List (String × V)) : List (String × V) :=
  upd.foldl (fun d kv => dictInsert d kv.1 kv.2) base

/-- Python truthiness of an optional dict: None and the empty dict are falsy. -/
def pyDictTruthy : Option (List (String × V)) → Bool
  | none => false
  | some d => !d.isEmpty

/-- The attributes of a `BasePermission` that its default `on_unauthorized`
reads: `message`, `error_extensions` and the `error_class` constructor
(an arbitrary constructor producing a `GraphQLError` from a message). -/
structure BasePermission (V : Type) where
  message : Option String
  error_extensions : Option (List (String × V))
  error_class : String → GraphQLError V

/-- The default `BasePermission.on_unauthorized`.  The source builds
`error = self.error_class(self.message or "")`; then, if `error_extensions`
is truthy, replaces a falsy `error.extensions` with an empty dict and runs
`error.extensions.update(self.error_extensions)`; finally it raises `error`.
The function returns the raised error (the method never returns normally). -/
def BasePermission.on_unauthorized (p : BasePermission V) : GraphQLError V :=
  let error := p.error_class (p.message.getD "")
  if pyDictTruthy p.error_extensions then
    let exts := if pyDictTruthy error.extensions then error.extensions.getD [] else []
    { error with extensions := some (dictUpdate exts (p.error_extensions.getD [])) }
  else error

/-- The directive object allocated by the `schema_directive` property:
`id` is the Python object identity (allocation number), `directiveName` the
name taken from the permission class. -/
structure AutoDirective where
  id : Nat
  directiveName : String
deriving DecidableEq

/-- The mutable state of one `BasePermission` instance that the
`schema_directive` property touches: the class name and the
`_schema_directive` cache slot (class default: None). -/
structure BasePermissionObj where
  clsName : String
  _schema_directive : Option AutoDirective
deriving DecidableEq

/-- The `schema_directive` property: `if not self._schema_directive`,
allocate a fresh `AutoDirective` (consuming one identity from the fresh
counter) and store it; return the stored object, the updated instance and
the updated counter.  A stored `AutoDirective` object is always truthy. -/
def schema_directive (p : BasePermissionObj) (fresh : Nat) :
    AutoDirective × BasePermissionObj × Nat :=
  match p._schema_directive with
  | some d => (d, p, fresh)
  | none =>
    let d : AutoDirective := ⟨fresh, p.clsName⟩
    (d, { p with _schema_directive := some d }, fresh + 1)

/-- The declared mode and outcome of one `has_permission` check for the
resolution being modelled: a synchronous check returning `result`, or an
asynchronous (coroutine-function) check whose coroutine resolves to
`result`. -/
inductive CheckKind where
  | sync (result : Bool)
  | async (result : Bool)
deriving DecidableEq

/-- Truthiness of the value returned by calling `has_permission` in the
synchronous `resolve` path: a synchronous check returns its boolean, while
calling an asynchronous check returns a coroutine object, which Python
always treats as truthy. -/
def syncCheckTruthy : CheckKind → Bool
  | .sync b => b
  | .async _ => true

/-- Modelled from the spec: the source imports `await_maybe` from
`strawberry.utils.await_maybe`, whose code is not part of the excerpt.  The
spec describes it as a uniform await-or-value adapter: a plain boolean is
used directly, and a future is awaited until it resolves to its boolean. -/
def await_maybe : CheckKind → Bool
  | .sync b => b
  | .async b => b

/-- `inspect.iscoroutinefunction` applied to a `has_permission`: true exactly
for a check declared asynchronous. -/
def iscoroutinefunction : CheckKind → Bool
  | .sync _ => false
  | .async _ => true

/-- A permission as seen by `PermissionExtension`: the declared mode and
outcome of its check, the error its (possibly overridden) `on_unauthorized`
raises, and the identity of its `schema_directive` (None when falsy). -/
structure Perm (V : Type) where
  kind : CheckKind
  on_unauthorized : GraphQLError V
  schema_directive : Option Nat
deriving DecidableEq

/-- Observable calls made during one resolution: the check of the permission
at a given index, the wrapped resolver `next_`, or the `on_unauthorized` of
the permission at a given index. -/
inductive Event where
  | check (i : Nat)
  | callNext
  | onUnauthorizedCall (i : Nat)
deriving DecidableEq

/-- The state of a `PermissionExtension`.  `__init__` stores the permission
list and the two flags and sets `return_empty_list := false`; the
`supports_sync` cache of the `cached_property` starts empty (`none`). -/
structure PermissionExtension (V : Type) where
  permissions : List (Perm V)
  use_directives : Bool
  fail_silently : Bool
  return_empty_list : Bool
  supports_sync_cache : Option Bool
deriving DecidableEq

/-- `PermissionExtension._on_unauthorized`: when `fail_silently`, return the
sentinel (`[]` when `return_empty_list` else None); otherwise call the
denying permission's `on_unauthorized`, which raises.  The second component
is the trace of `on_unauthorized` invocations, tagged with the index of the
denying permission. -/
def PermissionExtension._on_unauthorized (e : PermissionExtension V) (i : Nat)
    (p : Perm V) : Except (PyExc V) PyValue × List Event :=
  if e.fail_silently then
    (.ok (if e.return_empty_list then .pyList [] else .pyNone), [])
  else
    (.error (.graphqlErr p.on_unauthorized), [Event.onUnauthorizedCall i])

/-- The loop of the synchronous `resolve`, on the remaining permissions,
with `i` the index of the head permission; emits one `check` event per
`has_permission` call and a `callNext` event when the wrapped resolver is
invoked. -/
def PermissionExtension.resolveFrom (e : PermissionExtension V) (nextVal : PyValue) :
    List (Perm V) → Nat → Except (PyExc V) PyValue × List Event
  | [], _ => (.ok nextVal, [Event.callNext])
  | p :: ps, i =>
    if syncCheckTruthy p.kind then
      let r := PermissionExtension.resolveFrom e nextVal ps (i + 1)
      (r.1, Event.check i :: r.2)
    else
      let r := PermissionExtension._on_unauthorized e i p
      (r.1, Event.check i :: r.2)

/-- `PermissionExtension.resolve`: iterate the permissions in declared order;
on the first check whose returned value is falsy, delegate to
`_on_unauthorized`; otherwise call `next_` and return its value
(`nextVal` models the value `next_` returns). -/
def PermissionExtension.resolve (e : PermissionExtension V) (nextVal : PyValue) :
    Except (PyExc V) PyValue × List Event :=
  PermissionExtension.resolveFrom e nextVal e.permissions 0

/-- The value returned by calling `next_` in the asynchronous path: a plain
non-awaitable value, a future resolving to a value, or an async generator
object identified by `id`. -/
inductive NextResult where
  | plain (v : PyValue)
  | future (v : PyValue)
  | asyncGen (id : Nat)
deriving DecidableEq

/-- A successful outcome of `resolve_async`: a plain value, or an async
generator object returned unconsumed (same identity). -/
inductive AsyncOut where
  | value (v : PyValue)
  | agen (id : Nat)
deriving DecidableEq

/-- The message of the `TypeError` Python raises when `await` is applied to a
non-awaitable object. -/
def awaitTypeErrorMessage : String :=
  "object cannot be used in await expression"

/-- Lines 214 to 217 of the source: `next = next_(...)`; if
`inspect.isasyncgen(next)`, return `next` itself unconsumed; otherwise
`return await next` — awaiting a future yields its resolved value, while
awaiting a plain non-awaitable value raises a `TypeError`. -/
def finishNextAsync (nr : NextResult) : Except (PyExc V) AsyncOut :=
  match nr with
  | .asyncGen id => .ok (.agen id)
  | .future v => .ok (.value v)
  | .plain _ => .error (.typeError awaitTypeErrorMessage)

/-- Lift the result of `_on_unauthorized` (returned directly by
`resolve_async`) into the asynchronous outcome type. -/
def toAsyncOut : Except (PyExc V) PyValue → Except (PyExc V) AsyncOut
  | .ok v => .ok (.value v)
  | .error ex => .error ex

/-- The loop of `resolve_async` on the remaining permissions: each check is
resolved through `await_maybe`, denial delegates to `_on_unauthorized`, and
after all permissions pass the `next_` result is handled by
`finishNextAsync`. -/
def PermissionExtension.resolveAsyncFrom (e : PermissionExtension V) (nr : NextResult) :
    List (Perm V) → Nat → Except (PyExc V) AsyncOut × List Event
  | [], _ => (finishNextAsync nr, [Event.callNext])
  | p :: ps, i =>
    if await_maybe p.kind then
      let r := PermissionExtension.resolveAsyncFrom e nr ps (i + 1)
      (r.1, Event.check i :: r.2)
    else
      let r := PermissionExtension._on_unauthorized e i p
      (toAsyncOut r.1, Event.check i :: r.2)

/-- `PermissionExtension.resolve_async` on the extension's permission list
(`nr` models the value the call `next_(...)` returns). -/
def PermissionExtension.resolve_async (e : PermissionExtension V) (nr : NextResult) :
    Except (PyExc V) AsyncOut × List Event :=
  PermissionExtension.resolveAsyncFrom e nr e.permissions 0

/-- The body of the `supports_sync` property: build the list comprehension
`[True for permission in self.permissions if iscoroutinefunction(...)]` and
compare its length with 0. -/
def PermissionExtension.supports_sync (perms : List (Perm V)) : Bool :=
  (perms.filterMap
    (fun p => if iscoroutinefunction p.kind then some true else none)).length == 0

/-- Reading the `supports_sync` `cached_property`: return the cached value if
present, otherwise compute it from the permission list and store it. -/
def PermissionExtension.readSupportsSync (e : PermissionExtension V) :
    Bool × PermissionExtension V :=
  match e.supports_sync_cache with
  | some b => (b, e)
  | none =>
    let b := PermissionExtension.supports_sync e.permissions
    (b, { e with supports_sync_cache := some b })

/-- The shape of a field type: a named (scalar or object) type,
`StrawberryOptional` around an inner type, or `StrawberryList` around an
inner type. -/
inductive FieldType where
  | named (s : String)
  | optional (inner : FieldType)
  | list (inner : FieldType)
deriving DecidableEq

/-- The part of a `StrawberryField` the extension touches: its type and its
directive list (directives are tracked by object identity). -/
structure StrawberryField where
  type : FieldType
  directives : List Nat
deriving DecidableEq

/-- The configuration error raised by `apply` when `fail_silently` is
requested on a field that is neither optional nor a list. -/
structure PermissionFailSilentlyRequiresOptionalError where
  fieldType : FieldType
deriving DecidableEq

/-- One iteration of the directive loop in `apply`: skip a directive already
present in the list (membership by identity), otherwise append it. -/
def appendDirective (ds : List Nat) (d : Nat) : List Nat :=
  if d ∈ ds then ds else ds ++ [d]

/-- `PermissionExtension.apply`: when `use_directives`, collect
`[perm.schema_directive for perm in self.permissions if perm.schema_directive]`
and append each to `field.directives` unless already present; when
`fail_silently`, set `return_empty_list := true` for a list field or an
optional-of-list field, leave it for any other optional field, and raise
`PermissionFailSilentlyRequiresOptionalError` otherwise. -/
def PermissionExtension.apply (e : PermissionExtension V) (f : StrawberryField) :
    Except PermissionFailSilentlyRequiresOptionalError
      (StrawberryField × PermissionExtension V) :=
  let f1 :=
    if e.use_directives then
      let permission_directives := e.permissions.filterMap (fun p => p.schema_directive)
      { f with directives := permission_directives.foldl appendDirective f.directives }
    else f
  if e.fail_silently then
    match f.type with
    | .optional inner =>
      match inner with
      | .list _ => .ok (f1, { e with return_empty_list := true })
      | _ => .ok (f1, e)
    | .list _ => .ok (f1, { e with return_empty_list := true })
    | _ => .error ⟨f.type⟩
  else .ok (f1, e)

/-- The field type is optional at the top level (an isinstance check against
`StrawberryOptional`). -/
def isOptionalType : FieldType → Bool
  | .optional _ => true
  | _ => false

/-- The field type is a list at the top level (an isinstance check against
`StrawberryList`). -/
def isListType : FieldType → Bool
  | .list _ => true
  | _ => false

/-- The field type is an optional whose inner type is a list. -/
def isOptionalOfList : FieldType → Bool
  | .optional (.list _) => true
  | _ => false

/-- An `Except` holds an error. -/
def isError {ε α : Type} : Except ε α → Bool
  | .error _ => true
  | .ok _ => false

/-- The sublist of `ds` that the directive loop appends when the field
already carries the directives `seen`: drop a directive already seen, keep
the first occurrence of each new one, in order. -/
def dedupeAppend (seen : List Nat) : List Nat → List Nat
  | [] => []
  | d :: ds =>
    if d ∈ seen then dedupeAppend seen ds
    else d :: dedupeAppend (seen ++ [d]) ds

/-! Helper lemmas about the Python dict operations. -/

theorem dictLookup_dictInsert_self (d : List (String × V)) (k : String) (v : V) :
    dictLookup (dictInsert d k v) k = some v := by
  induction d with
  | nil => simp [dictInsert, dictLookup]
  | cons kv rest ih =>
    by_cases h : kv.1 = k
    · simp [dictInsert, h, dictLookup]
    · simp [dictInsert, h, dictLookup, ih]

theorem dictLookup_dictInsert_ne (d : List (String × V)) (k : String) (v : V)
    (k' : String) (h : k' ≠ k) :
    dictLookup (dictInsert d k v) k' = dictLookup d k' := by
  have hne : ¬k = k' := fun hkk => h hkk.symm
  induction d with
  | nil => simp [dictInsert, dictLookup, hne]
  | cons kv rest ih =>
    by_cases h1 : kv.1 = k
    · have h2 : ¬kv.1 = k' := by rw [h1]; exact hne
      simp [dictInsert, h1, dictLookup, h2, hne]
    · simp [dictInsert, h1, dictLookup, ih]

theorem dictLookup_eq_none_of_not_mem_keys (l : List (String × V)) (k : String)
    (h : k ∉ l.map Prod.fst) : dictLookup l k = none := by
  induction l with
  | nil => simp [dictLookup]
  | cons kv rest ih =>
    simp only [List.map_cons, List.mem_cons, not_or] at h
    have h1 : ¬kv.1 = k := fun hkk => h.1 hkk.symm
    simp [dictLookup, h1, ih h.2]

theorem dictLookup_dictUpdate_of_none (upd : List (String × V)) :
    ∀ (base : List (String × V)) (k : String), dictLookup upd k = none →
      dictLookup (dictUpdate base upd) k = dictLookup base k := by
  induction upd with
  | nil => intro base k _; rfl
  | cons kv rest ih =>
    intro base k h
    simp only [dictLookup] at h
    by_cases hk : kv.1 = k
    · simp [hk] at h
    · rw [if_neg hk] at h
      have h2 : dictLookup (dictUpdate (dictInsert base kv.1 kv.2) rest) k
          = dictLookup (dictInsert base kv.1 kv.2) k := ih _ k h
      have h3 : dictLookup (dictInsert base kv.1 kv.2) k = dictLookup base k :=
        dictLookup_dictInsert_ne base kv.1 kv.2 k (fun hkk => hk hkk.symm)
      simpa [dictUpdate, h3] using h2

theorem dictLookup_dictUpdate_of_some (upd : List (String × V))
    (hnd : (upd.map Prod.fst).Nodup) :
    ∀ (base : List (String × V)) (k : String) (v : V), dictLookup upd k = some v →
      dictLookup (dictUpdate base upd) k = some v := by
  induction upd with
  | nil => intro base k v h; simp [dictLookup] at h
  | cons kv rest ih =>
    simp only [List.map_cons, List.nodup_cons] at hnd
    intro base k v h
    simp only [dictLookup] at h
    by_cases hk : kv.1 = k
    · rw [if_pos hk, Option.some.injEq] at h
      have hrest : dictLookup rest k = none :=
        dictLookup_eq_none_of_not_mem_keys rest k (by rw [← hk]; exact hnd.1)
      have h2 : dictLookup (dictUpdate (dictInsert base kv.1 kv.2) rest) k
          = dictLookup (dictInsert base kv.1 kv.2) k :=
        dictLookup_dictUpdate_of_none rest _ k hrest
      have h3 : dictLookup (dictInsert base kv.1 kv.2) k = some kv.2 := by
        rw [hk]; exact dictLookup_dictInsert_self base k kv.2
      show dictLookup (dictUpdate (dictInsert base kv.1 kv.2) rest) k = some v
      rw [h2, h3, h]
    · rw [if_neg hk] at h
      exact ih hnd.2 _ k v h

theorem getD_eq_nil_of_not_pyDictTruthy (o : Option (List (String × V)))
    (h : pyDictTruthy o = false) : o.getD [] = [] := by
  cases o with
  | none => rfl
  | some d => simpa [pyDictTruthy, List.isEmpty_iff] using h

/-! Helper lemmas about the two resolution paths. -/

theorem _on_unauthorized_trace (e : PermissionExtension V) (i : Nat) (p : Perm V) :
    (PermissionExtension._on_unauthorized e i p).2
      = if e.fail_silently then [] else [Event.onUnauthorizedCall i] := by
  by_cases h : e.fail_silently <;> simp [PermissionExtension._on_unauthorized, h]

theorem resolveFrom_denies (e : PermissionExtension V) (nv : PyValue)
    (suf : List (Perm V)) (p : Perm V) (hp : syncCheckTruthy p.kind = false) :
    ∀ (pre : List (Perm V)), (∀ q ∈ pre, syncCheckTruthy q.kind = true) →
      ∀ (i : Nat), PermissionExtension.resolveFrom e nv (pre ++ p :: suf) i
        = ((PermissionExtension._on_unauthorized e (i + pre.length) p).1,
           (List.range' i (pre.length + 1)).map Event.check
             ++ (PermissionExtension._on_unauthorized e (i + pre.length) p).2) := by
  intro pre
  induction pre with
  | nil =>
    intro _ i
    simp [PermissionExtension.resolveFrom, hp, List.range'_succ]
  | cons q qs ih =>
    intro hpre i
    have hq : syncCheckTruthy q.kind = true := hpre q (by simp)
    have ihq := ih (fun r hr => hpre r (by simp [hr])) (i + 1)
    have harith : i + 1 + qs.length = i + (qs.length + 1) := by omega
    simp only [List.cons_append, PermissionExtension.resolveFrom, hq, if_pos,
      List.append_eq, ihq, List.length_cons, List.range'_succ, List.map_cons, harith]

theorem resolveAsyncFrom_denies (e : PermissionExtension V) (nr : NextResult)
    (suf : List (Perm V)) (p : Perm V) (hp : await_maybe p.kind = false) :
    ∀ (pre : List (Perm V)), (∀ q ∈ pre, await_maybe q.kind = true) →
      ∀ (i : Nat), PermissionExtension.resolveAsyncFrom e nr (pre ++ p :: suf) i
        = (toAsyncOut (PermissionExtension._on_unauthorized e (i + pre.length) p).1,
           (List.range' i (pre.length + 1)).map Event.check
             ++ (PermissionExtension._on_unauthorized e (i + pre.length) p).2) := by
  intro pre
  induction pre with
  | nil =>
    intro _ i
    simp [PermissionExtension.resolveAsyncFrom, hp, List.range'_succ]
  | cons q qs ih =>
    intro hpre i
    have hq : await_maybe q.kind = true := hpre q (by simp)
    have ihq := ih (fun r hr => hpre r (by simp [hr])) (i + 1)
    have harith : i + 1 + qs.length = i + (qs.length + 1) := by omega
    simp only [List.cons_append, PermissionExtension.resolveAsyncFrom, hq, if_pos,
      List.append_eq, ihq, List.length_cons, List.range'_succ, List.map_cons, harith]

theorem resolveAsyncFrom_all_pass (e : PermissionExtension V) (nr : NextResult) :
    ∀ (ps : List (Perm V)), (∀ q ∈ ps, await_maybe q.kind = true) →
      ∀ (i : Nat), PermissionExtension.resolveAsyncFrom e nr ps i
        = (finishNextAsync nr,
           (List.range' i ps.length).map Event.check ++ [Event.callNext]) := by
  intro ps
  induction ps with
  | nil => intro _ i; simp [PermissionExtension.resolveAsyncFrom]
  | cons q qs ih =>
    intro hps i
    have hq : await_maybe q.kind = true := hps q (by simp)
    have ihq := ih (fun r hr => hps r (by simp [hr])) (i + 1)
    simp only [PermissionExtension.resolveAsyncFrom, hq, if_pos, ihq,
      List.length_cons, List.range'_succ, List.map_cons, List.cons_append]

theorem resolveFrom_permissions_irrel (e : PermissionExtension V)
    (P : List (Perm V)) (nv : PyValue) :
    ∀ (l : List (Perm V)) (i : Nat),
      PermissionExtension.resolveFrom { e with permissions := P } nv l i
        = PermissionExtension.resolveFrom e nv l i := by
  intro l
  induction l with
  | nil => intro i; rfl
  | cons p ps ih =>
    intro i
    by_cases h : syncCheckTruthy p.kind <;>
      simp [PermissionExtension.resolveFrom, PermissionExtension._on_unauthorized, h, ih]

theorem resolveFrom_mid_truthy (e : PermissionExtension V) (nv : PyValue)
    (x y : Perm V) (hx : syncCheckTruthy x.kind = true)
    (hy : syncCheckTruthy y.kind = true) (suf : List (Perm V)) :
    ∀ (pre : List (Perm V)) (i : Nat),
      PermissionExtension.resolveFrom e nv (pre ++ x :: suf) i
        = PermissionExtension.resolveFrom e nv (pre ++ y :: suf) i := by
  intro pre
  induction pre with
  | nil => intro i; simp [PermissionExtension.resolveFrom, hx, hy]
  | cons q qs ih =>
    intro i
    by_cases h : syncCheckTruthy q.kind <;>
      simp [PermissionExtension.resolveFrom, h, ih]

theorem resolveFrom_no_onUnauthorizedCall (e : PermissionExtension V)
    (hfs : e.fail_silently = true) (nv : PyValue) :
    ∀ (l : List (Perm V)) (i j : Nat),
      Event.onUnauthorizedCall j ∉ (PermissionExtension.resolveFrom e nv l i).2 := by
  intro l
  induction l with
  | nil => intro i j; simp [PermissionExtension.resolveFrom]
  | cons p ps ih =>
    intro i j
    by_cases h : syncCheckTruthy p.kind <;>
      simp [PermissionExtension.resolveFrom, PermissionExtension._on_unauthorized, h, hfs, ih]

theorem resolveAsyncFrom_no_onUnauthorizedCall (e : PermissionExtension V)
    (hfs : e.fail_silently = true) (nr : NextResult) :
    ∀ (l : List (Perm V)) (i j : Nat),
      Event.onUnauthorizedCall j ∉ (PermissionExtension.resolveAsyncFrom e nr l i).2 := by
  intro l
  induction l with
  | nil => intro i j; simp [PermissionExtension.resolveAsyncFrom]
  | cons p ps ih =>
    intro i j
    by_cases h : await_maybe p.kind <;>
      simp [PermissionExtension.resolveAsyncFrom, PermissionExtension._on_unauthorized,
        h, hfs, ih]

/-! Helper lemmas about the directive loop of `apply` and `supports_sync`. -/

theorem foldl_appendDirective :
    ∀ (pds seen : List Nat), pds.foldl appendDirective seen = seen ++ dedupeAppend seen pds := by
  intro pds
  induction pds with
  | nil => intro seen; simp [dedupeAppend]
  | cons d ds ih =>
    intro seen
    by_cases h : d ∈ seen
    · simp [List.foldl, appendDirective, h, dedupeAppend, ih]
    · simp only [List.foldl, appendDirective, h, if_neg, not_false_iff, dedupeAppend,
        ih (seen ++ [d])]
      simp [dedupeAppend, h, List.append_assoc]

theorem dedupeAppend_nodup :
    ∀ (pds seen : List Nat), seen.Nodup → (seen ++ dedupeAppend seen pds).Nodup := by
  intro pds
  induction pds with
  | nil => intro seen h; simpa [dedupeAppend] using h
  | cons d ds ih =>
    intro seen h
    by_cases hd : d ∈ seen
    · simpa [dedupeAppend, hd] using ih seen h
    · have h2 : (seen ++ [d]).Nodup := by
        simp [List.nodup_append, h, List.Disjoint]
        intro a ha had
        exact hd (had ▸ ha)
      have h3 := ih (seen ++ [d]) h2
      simp only [dedupeAppend, hd, if_neg, not_false_iff]
      simpa [List.append_assoc] using h3

theorem mem_dedupeAppend :
    ∀ (pds seen : List Nat) (x : Nat),
      x ∈ seen ++ dedupeAppend seen pds ↔ x ∈ seen ∨ x ∈ pds := by
  intro pds
  induction pds with
  | nil => intro seen x; simp [dedupeAppend]
  | cons d ds ih =>
    intro seen x
    by_cases hd : d ∈ seen
    · rw [dedupeAppend, if_pos hd, ih seen x]
      constructor
      · rintro (h | h)
        · exact Or.inl h
        · exact Or.inr (List.mem_cons_of_mem _ h)
      · rintro (h | h)
        · exact Or.inl h
        · rcases List.mem_cons.mp h with rfl | h2
          · exact Or.inl hd
          · exact Or.inr h2
    · rw [dedupeAppend, if_neg hd]
      have h3 := ih (seen ++ [d]) x
      rw [List.append_assoc] at h3
      simp only [List.singleton_append] at h3
      rw [h3]
      simp only [List.mem_append, List.mem_singleton, List.mem_cons]
      tauto

theorem supports_sync_eq_false_iff (perms : List (Perm V)) :
    PermissionExtension.supports_sync perms = false
      ↔ ∃ p ∈ perms, iscoroutinefunction p.kind = true := by
  rw [PermissionExtension.supports_sync, beq_eq_false_iff_ne, Ne,
    List.length_eq_zero, List.filterMap_eq_nil_iff]
  constructor
  · intro h
    by_contra hc
    push_neg at hc
    refine h (fun p hp => ?_)
    have := hc p hp
    simp [this]
  · rintro ⟨p, hp, hco⟩ hall
    have := hall p hp
    simp [hco] at this

/-! Concrete instances used by the witnesses. -/

/-- A concrete denial error used by the witness extensions. -/
def errW : GraphQLError Nat := ⟨"denied", none⟩

/-- A synchronous permission whose check passes. -/
def permPassW : Perm Nat := ⟨CheckKind.sync true, errW, none⟩

/-- A synchronous permission whose check denies. -/
def permDenyW : Perm Nat := ⟨CheckKind.sync false, errW, none⟩

/-- Extension with permissions pass, deny, pass and no fail-silently. -/
def extDenyW : PermissionExtension Nat :=
  ⟨[permPassW, permDenyW, permPassW], true, false, false, none⟩

/-- Extension with permissions pass, deny, fail-silently on, policy None. -/
def extSilentW : PermissionExtension Nat :=
  ⟨[permPassW, permDenyW], true, true, false, none⟩

/-- Extension with an empty permission list. -/
def extNoPermsW : PermissionExtension Nat := ⟨[], true, false, false, none⟩

/-- Extension with a single asynchronous passing permission. -/
def extAsyncPassW : PermissionExtension Nat :=
  ⟨[⟨CheckKind.async true, errW, none⟩], true, false, false, none⟩

/-! The claims. -/

/-- C1: for every permission list split as `pre ++ p :: suf` where every check
before `p` passes and the check of `p` denies (so the first denial is at index
k = pre.length), both `resolve` and `resolve_async` produce exactly the trace
`check 0, …, check k` followed, when not fail-silently, by the single
`on_unauthorized` call of the denying permission: the checks at indices 0..k
are invoked exactly once each in declared order, the checks at indices k+1
onward are never invoked, and the wrapped resolver `next_` is never invoked. -/
theorem first_denial_short_circuit (e : PermissionExtension V) (nv : PyValue)
    (nr : NextResult) (pre suf : List (Perm V)) (p : Perm V)
    (hsplit : e.permissions = pre ++ p :: suf) :
    ((∀ q ∈ pre, syncCheckTruthy q.kind = true) → syncCheckTruthy p.kind = false →
      (PermissionExtension.resolve e nv).2
        = (List.range (pre.length + 1)).map Event.check
            ++ (if e.fail_silently then [] else [Event.onUnauthorizedCall pre.length]))
    ∧ ((∀ q ∈ pre, await_maybe q.kind = true) → await_maybe p.kind = false →
      (PermissionExtension.resolve_async e nr).2
        = (List.range (pre.length + 1)).map Event.check
            ++ (if e.fail_silently then [] else [Event.onUnauthorizedCall pre.length])) := by
  constructor
  · intro hpre hp
    rw [PermissionExtension.resolve, hsplit, resolveFrom_denies e nv suf p hp pre hpre 0]
    simp [_on_unauthorized_trace, List.range_eq_range']
  · intro hpre hp
    rw [PermissionExtension.resolve_async, hsplit,
      resolveAsyncFrom_denies e nr suf p hp pre hpre 0]
    simp [_on_unauthorized_trace, List.range_eq_range']

/-- Witness for C1 on a concrete three-permission extension whose second
permission denies. -/
theorem first_denial_short_circuit_witness :
    (PermissionExtension.resolve extDenyW PyValue.pyNone).2
        = (List.range ([permPassW].length + 1)).map Event.check
            ++ (if extDenyW.fail_silently then []
                else [Event.onUnauthorizedCall [permPassW].length])
    ∧ (PermissionExtension.resolve_async extDenyW (NextResult.future (PyValue.pyInt 3))).2
        = (List.range ([permPassW].length + 1)).map Event.check
            ++ (if extDenyW.fail_silently then []
                else [Event.onUnauthorizedCall [permPassW].length]) := by
  have h := first_denial_short_circuit extDenyW PyValue.pyNone
    (NextResult.future (PyValue.pyInt 3)) [permPassW] [permPassW] permDenyW rfl
  exact ⟨h.1 (by decide) (by decide), h.2 (by decide) (by decide)⟩

/-- C3: in either resolution path, with fail-silently on and the first denial
at index pre.length, the resolver returns the sentinel dictated by the
empty-value policy (the empty list when `return_empty_list`, otherwise None)
and no error is raised. -/
theorem fail_silently_denial_returns_sentinel (e : PermissionExtension V)
    (nv : PyValue) (nr : NextResult) (pre suf : List (Perm V)) (p : Perm V)
    (hfs : e.fail_silently = true) (hsplit : e.permissions = pre ++ p :: suf) :
    ((∀ q ∈ pre, syncCheckTruthy q.kind = true) → syncCheckTruthy p.kind = false →
      (PermissionExtension.resolve e nv).1
        = Except.ok (if e.return_empty_list then PyValue.pyList [] else PyValue.pyNone))
    ∧ ((∀ q ∈ pre, await_maybe q.kind = true) → await_maybe p.kind = false →
      (PermissionExtension.resolve_async e nr).1
        = Except.ok (AsyncOut.value
            (if e.return_empty_list then PyValue.pyList [] else PyValue.pyNone))) := by
  constructor
  · intro hpre hp
    rw [PermissionExtension.resolve, hsplit, resolveFrom_denies e nv suf p hp pre hpre 0]
    simp [PermissionExtension._on_unauthorized, hfs]
  · intro hpre hp
    rw [PermissionExtension.resolve_async, hsplit,
      resolveAsyncFrom_denies e nr suf p hp pre hpre 0]
    simp [PermissionExtension._on_unauthorized, hfs, toAsyncOut]

/-- Witness for C3 on a concrete fail-silently extension with policy None. -/
theorem fail_silently_denial_returns_sentinel_witness :
    (PermissionExtension.resolve extSilentW PyValue.pyNone).1
        = Except.ok (if extSilentW.return_empty_list then PyValue.pyList []
            else PyValue.pyNone)
    ∧ (PermissionExtension.resolve_async extSilentW (NextResult.future PyValue.pyNone)).1
        = Except.ok (AsyncOut.value
            (if extSilentW.return_empty_list then PyValue.pyList [] else PyValue.pyNone)) := by
  have h := fail_silently_denial_returns_sentinel extSilentW PyValue.pyNone
    (NextResult.future PyValue.pyNone) [permPassW] [] permDenyW rfl rfl
  exact ⟨h.1 (by decide) (by decide), h.2 (by decide) (by decide)⟩

/-- C9: the synchronous `resolve` tests the value returned by calling
`has_permission` for truthiness without awaiting it; for a permission whose
check is declared asynchronous that value is a coroutine object, which is
truthy, so resolution behaves exactly as if the permission had a synchronous
check returning True — regardless of the boolean `b` the coroutine would
resolve to. -/
theorem sync_resolve_treats_async_check_as_granted (e : PermissionExtension V)
    (pre suf : List (Perm V)) (b : Bool) (u : GraphQLError V) (d : Option Nat)
    (nv : PyValue) :
    PermissionExtension.resolve
        { e with permissions := pre ++ ⟨CheckKind.async b, u, d⟩ :: suf } nv
      = PermissionExtension.resolve
          { e with permissions := pre ++ ⟨CheckKind.sync true, u, d⟩ :: suf } nv := by
  unfold PermissionExtension.resolve
  dsimp only
  simp only [resolveFrom_permissions_irrel]
  exact resolveFrom_mid_truthy e nv ⟨CheckKind.async b, u, d⟩ ⟨CheckKind.sync true, u, d⟩
    rfl rfl suf pre 0

/-- C10: with fail-silently on, `_on_unauthorized` returns the sentinel
computed from the extension state alone — the same result for every denying
permission, overridden `on_unauthorized` or not — with no `on_unauthorized`
invocation, and no resolution trace of either path ever contains an
`on_unauthorized` call. -/
theorem fail_silently_skips_on_unauthorized (e : PermissionExtension V)
    (hfs : e.fail_silently = true) :
    (∀ (i : Nat) (p : Perm V), PermissionExtension._on_unauthorized e i p
        = (Except.ok (if e.return_empty_list then PyValue.pyList [] else PyValue.pyNone), []))
    ∧ (∀ (nv : PyValue) (i : Nat),
        Event.onUnauthorizedCall i ∉ (PermissionExtension.resolve e nv).2)
    ∧ (∀ (nr : NextResult) (i : Nat),
        Event.onUnauthorizedCall i ∉ (PermissionExtension.resolve_async e nr).2) := by
  refine ⟨fun i p => by simp [PermissionExtension._on_unauthorized, hfs],
    fun nv i => ?_, fun nr i => ?_⟩
  · exact resolveFrom_no_onUnauthorizedCall e hfs nv e.permissions 0 i
  · exact resolveAsyncFrom_no_onUnauthorizedCall e hfs nr e.permissions 0 i

/-- Witness for C10 on a concrete fail-silently extension. -/
theorem fail_silently_skips_on_unauthorized_witness :
    PermissionExtension._on_unauthorized extSilentW 1 permDenyW
        = (Except.ok PyValue.pyNone, [])
    ∧ Event.onUnauthorizedCall 1 ∉ (PermissionExtension.resolve extSilentW PyValue.pyNone).2 := by
  have h := fail_silently_skips_on_unauthorized extSilentW rfl
  exact ⟨by simpa using h.1 1 permDenyW, h.2.1 PyValue.pyNone 1⟩

/-- C4 counterexample: with an empty permission list (every permission passes
vacuously) and the wrapped resolver returning the plain non-awaitable value 7,
`resolve_async` does not return the value directly as the claim states: the
unconditional `await next` raises a TypeError. -/
theorem resolve_async_plain_value_counterexample :
    (PermissionExtension.resolve_async extNoPermsW (NextResult.plain (PyValue.pyInt 7))).1
        ≠ Except.ok (AsyncOut.value (PyValue.pyInt 7))
    ∧ (PermissionExtension.resolve_async extNoPermsW (NextResult.plain (PyValue.pyInt 7))).1
        = Except.error (PyExc.typeError awaitTypeErrorMessage) := by
  exact ⟨by decide, rfl⟩

/-- C4 (amended): after all permissions pass, `resolve_async` returns an async
generator produced by `next_` unconsumed (same identity, not awaited) and
awaits a future to its resolved value; but a plain non-awaitable value is not
returned directly — the unconditional await raises a TypeError. -/
theorem resolve_async_next_result_handling (e : PermissionExtension V)
    (h : ∀ q ∈ e.permissions, await_maybe q.kind = true) :
    (∀ gid : Nat, (PermissionExtension.resolve_async e (NextResult.asyncGen gid)).1
        = Except.ok (AsyncOut.agen gid))
    ∧ (∀ v : PyValue, (PermissionExtension.resolve_async e (NextResult.future v)).1
        = Except.ok (AsyncOut.value v))
    ∧ (∀ v : PyValue, (PermissionExtension.resolve_async e (NextResult.plain v)).1
        = Except.error (PyExc.typeError awaitTypeErrorMessage)) := by
  refine ⟨fun gid => ?_, fun v => ?_, fun v => ?_⟩ <;>
    rw [PermissionExtension.resolve_async,
      resolveAsyncFrom_all_pass e _ e.permissions h 0] <;> rfl

/-- Witness for the amended C4 on a concrete extension with one asynchronous
passing permission. -/
theorem resolve_async_next_result_handling_witness :
    (PermissionExtension.resolve_async extAsyncPassW (NextResult.asyncGen 5)).1
        = Except.ok (AsyncOut.agen 5)
    ∧ (PermissionExtension.resolve_async extAsyncPassW (NextResult.future PyValue.pyNone)).1
        = Except.ok (AsyncOut.value PyValue.pyNone) := by
  have h := resolve_async_next_result_handling extAsyncPassW (by decide)
  exact ⟨h.1 5, h.2.1 PyValue.pyNone⟩

/-- C2: when `fail_silently` is requested on a freshly constructed extension
(`return_empty_list` still false from `__init__`), `apply` raises
`PermissionFailSilentlyRequiresOptionalError` exactly when the field type is
neither optional, nor a list, nor optional-of-list; otherwise it completes
and fixes `return_empty_list` to true for list and optional-of-list types and
to false for any other optional type. -/
theorem apply_fail_silently_policy (e : PermissionExtension V) (f : StrawberryField)
    (hfs : e.fail_silently = true) (hinit : e.return_empty_list = false) :
    (isError (PermissionExtension.apply e f) = true
      ↔ (isOptionalType f.type = false ∧ isListType f.type = false
          ∧ isOptionalOfList f.type = false))
    ∧ (∀ fe, PermissionExtension.apply e f = Except.ok fe →
        fe.2.return_empty_list = (isListType f.type || isOptionalOfList f.type)) := by
  obtain ⟨t, ds⟩ := f
  cases t with
  | named s =>
    refine ⟨by simp [PermissionExtension.apply, hfs, isError, isOptionalType,
      isListType, isOptionalOfList], ?_⟩
    intro fe hfe
    simp [PermissionExtension.apply, hfs] at hfe
  | optional inner =>
    cases inner with
    | named s =>
      refine ⟨by simp [PermissionExtension.apply, hfs, isError, isOptionalType,
        isListType, isOptionalOfList], ?_⟩
      intro fe hfe
      simp only [PermissionExtension.apply, hfs, if_true, Except.ok.injEq] at hfe
      rw [← hfe]
      simp [isListType, isOptionalOfList, hinit]
    | optional inner2 =>
      refine ⟨by simp [PermissionExtension.apply, hfs, isError, isOptionalType,
        isListType, isOptionalOfList], ?_⟩
      intro fe hfe
      simp only [PermissionExtension.apply, hfs, if_true, Except.ok.injEq] at hfe
      rw [← hfe]
      simp [isListType, isOptionalOfList, hinit]
    | list inner2 =>
      refine ⟨by simp [PermissionExtension.apply, hfs, isError, isOptionalType,
        isListType, isOptionalOfList], ?_⟩
      intro fe hfe
      simp only [PermissionExtension.apply, hfs, if_true, Except.ok.injEq] at hfe
      rw [← hfe]
      simp [isListType, isOptionalOfList]
  | list inner =>
    refine ⟨by simp [PermissionExtension.apply, hfs, isError, isOptionalType,
      isListType, isOptionalOfList], ?_⟩
    intro fe hfe
    simp only [PermissionExtension.apply, hfs, if_true, Except.ok.injEq] at hfe
    rw [← hfe]
    simp [isListType, isOptionalOfList]

/-- A fail-silently extension with no permissions, as built by `__init__`. -/
def extFSW : PermissionExtension Nat := ⟨[], true, true, false, none⟩

/-- A field with a bare optional scalar type. -/
def fieldOptIntW : StrawberryField := ⟨FieldType.optional (FieldType.named "Int"), []⟩

/-- Witness for C2: on a bare scalar field setup raises; on a bare optional
scalar field setup completes with the None policy. -/
theorem apply_fail_silently_policy_witness :
    isError (PermissionExtension.apply extFSW
        (⟨FieldType.named "Int", []⟩ : StrawberryField)) = true
    ∧ extFSW.return_empty_list
        = (isListType fieldOptIntW.type || isOptionalOfList fieldOptIntW.type) := by
  have h1 := apply_fail_silently_policy extFSW
    (⟨FieldType.named "Int", []⟩ : StrawberryField) rfl rfl
  have h2 := apply_fail_silently_policy extFSW fieldOptIntW rfl rfl
  exact ⟨h1.1.mpr (by decide), h2.2 (fieldOptIntW, extFSW) (by decide)⟩

/-- C7: whenever `apply` completes with `use_directives` on and the field
carries no duplicate directive, the resulting directive list is the original
list extended by the first occurrence of each permission directive not already
present, in declared order; it has no duplicates, and it contains exactly the
old directives and the permission directives.  In particular two permissions
with the identity-equal directive `d` on a field carrying neither add exactly
the single entry `d`. -/
theorem apply_directives_dedupe (e : PermissionExtension V) (f : StrawberryField)
    (hud : e.use_directives = true) (hnd : f.directives.Nodup) :
    (∀ fe, PermissionExtension.apply e f = Except.ok fe →
      fe.1.directives
          = f.directives
              ++ dedupeAppend f.directives
                  (e.permissions.filterMap (fun p => p.schema_directive))
        ∧ fe.1.directives.Nodup
        ∧ (∀ d : Nat, d ∈ fe.1.directives ↔
            d ∈ f.directives ∨ ∃ p ∈ e.permissions, p.schema_directive = some d))
    ∧ (∀ (p q : Perm V) (d : Nat), p.schema_directive = some d →
        q.schema_directive = some d → d ∉ f.directives →
        PermissionExtension.apply
            (⟨[p, q], true, false, false, none⟩ : PermissionExtension V) f
          = Except.ok ({ f with directives := f.directives ++ [d] },
              (⟨[p, q], true, false, false, none⟩ : PermissionExtension V))) := by
  constructor
  · intro fe hfe
    have hdir : fe.1.directives
        = f.directives ++ dedupeAppend f.directives
            (e.permissions.filterMap (fun p => p.schema_directive)) := by
      rw [← foldl_appendDirective]
      unfold PermissionExtension.apply at hfe
      simp only [hud, if_true] at hfe
      split at hfe
      · split at hfe
        · split at hfe
          · rw [← (Except.ok.injEq _ _).mp hfe]
          · rw [← (Except.ok.injEq _ _).mp hfe]
        · rw [← (Except.ok.injEq _ _).mp hfe]
        · exact Except.noConfusion hfe
      · rw [← (Except.ok.injEq _ _).mp hfe]
    refine ⟨hdir, ?_, ?_⟩
    · rw [hdir]
      exact dedupeAppend_nodup _ f.directives hnd
    · intro d
      rw [hdir, mem_dedupeAppend, List.mem_filterMap]
  · intro p q d hp hq hdf
    have hfold : ([p, q].filterMap (fun r => r.schema_directive)).foldl
        appendDirective f.directives = f.directives ++ [d] := by
      simp only [List.filterMap, hp, hq]
      simp [List.foldl, appendDirective, hdf]
    simp only [PermissionExtension.apply]
    simp [hfold]

/-- A permission whose memoized directive has identity 4. -/
def permDir4W : Perm Nat := ⟨CheckKind.sync true, errW, some 4⟩

/-- An extension holding the same directive-4 permission twice. -/
def extTwoDirW : PermissionExtension Nat := ⟨[permDir4W, permDir4W], true, false, false, none⟩

/-- A field already carrying the unrelated directive 9. -/
def fieldDirW : StrawberryField := ⟨FieldType.named "X", [9]⟩

/-- Witness for C7: attaching two permissions with the identity-equal
directive 4 to a field carrying only directive 9 appends exactly one entry,
and the result has no duplicates. -/
theorem apply_directives_dedupe_witness :
    PermissionExtension.apply extTwoDirW fieldDirW
        = Except.ok ({ fieldDirW with directives := fieldDirW.directives ++ [4] },
            extTwoDirW)
    ∧ (fieldDirW.directives ++ [4]).Nodup := by
  have h := apply_directives_dedupe extTwoDirW fieldDirW rfl (by decide)
  have h2 := h.2 permDir4W permDir4W 4 rfl rfl (by decide)
  refine ⟨h2, ?_⟩
  have h1 := h.1 ({ fieldDirW with directives := fieldDirW.directives ++ [4] },
    extTwoDirW) h2
  simpa using h1.2.1

/-- C5: the default `on_unauthorized` raises an instance of `error_class`
built with `message` (the empty string when unset) whose extensions mapping
merges `error_extensions` over the pre-existing entries: a key mapped by
`error_extensions` takes the permission value, and a key not mapped by it
keeps the value the constructed error had (keys of a Python dict are unique,
hence the Nodup hypothesis). -/
theorem default_on_unauthorized_merges (p : BasePermission V)
    (hnd : ((p.error_extensions.getD []).map Prod.fst).Nodup) :
    (BasePermission.on_unauthorized p).message
        = (p.error_class (p.message.getD "")).message
    ∧ (∀ (k : String) (v : V), dictLookup (p.error_extensions.getD []) k = some v →
        dictLookup ((BasePermission.on_unauthorized p).extensions.getD []) k = some v)
    ∧ (∀ k : String, dictLookup (p.error_extensions.getD []) k = none →
        dictLookup ((BasePermission.on_unauthorized p).extensions.getD []) k
          = dictLookup ((p.error_class (p.message.getD "")).extensions.getD []) k) := by
  by_cases ht : pyDictTruthy p.error_extensions
  · refine ⟨by simp [BasePermission.on_unauthorized, ht], fun k v h => ?_, fun k h => ?_⟩
    · simp only [BasePermission.on_unauthorized, ht, if_true, Option.getD_some]
      exact dictLookup_dictUpdate_of_some _ hnd _ k v h
    · simp only [BasePermission.on_unauthorized, ht, if_true, Option.getD_some]
      rw [dictLookup_dictUpdate_of_none _ _ k h]
      by_cases hbt : pyDictTruthy (p.error_class (p.message.getD "")).extensions
      · rw [if_pos hbt]
      · rw [if_neg hbt, getD_eq_nil_of_not_pyDictTruthy _ (by simpa using hbt)]
  · refine ⟨by simp [BasePermission.on_unauthorized, ht], fun k v h => ?_, fun k h => ?_⟩
    · rw [getD_eq_nil_of_not_pyDictTruthy _ (by simpa using ht)] at h
      simp [dictLookup] at h
    · simp [BasePermission.on_unauthorized, ht]

/-- A concrete permission whose error class pre-populates extensions with a
colliding key `code` and a disjoint key `keep`. -/
def basePermW : BasePermission Nat :=
  ⟨some "nope", some [("code", 1)],
    fun m => ⟨m, some [("code", 0), ("keep", 5)]⟩⟩

/-- Witness for C5 on a concrete permission: the raised error keeps the
message, the colliding key takes the permission value, and the pre-existing
disjoint key is preserved. -/
theorem default_on_unauthorized_merges_witness :
    (BasePermission.on_unauthorized basePermW).message = "nope"
    ∧ dictLookup ((BasePermission.on_unauthorized basePermW).extensions.getD []) "code"
        = some 1
    ∧ dictLookup ((BasePermission.on_unauthorized basePermW).extensions.getD []) "keep"
        = some 5 := by
  have h := default_on_unauthorized_merges basePermW (by decide)
  refine ⟨h.1.trans (by decide), h.2.1 "code" 1 (by decide), ?_⟩
  exact (h.2.2 "keep" (by decide)).trans (by decide)

/-- C6: reading `supports_sync` on a freshly built extension yields false
exactly when some permission has a check declared asynchronous, and reading
it again on the resulting state returns the same value and leaves the state
unchanged (the cached_property is stable). -/
theorem supports_sync_spec (e : PermissionExtension V)
    (hc : e.supports_sync_cache = none) :
    ((PermissionExtension.readSupportsSync e).1 = false
      ↔ ∃ p ∈ e.permissions, iscoroutinefunction p.kind = true)
    ∧ PermissionExtension.readSupportsSync (PermissionExtension.readSupportsSync e).2
        = PermissionExtension.readSupportsSync e := by
  constructor
  · rw [show (PermissionExtension.readSupportsSync e).1
        = PermissionExtension.supports_sync e.permissions by
      simp [PermissionExtension.readSupportsSync, hc]]
    exact supports_sync_eq_false_iff e.permissions
  · simp [PermissionExtension.readSupportsSync, hc]

/-- Witness for C6 on an extension with a single asynchronous permission. -/
theorem supports_sync_spec_witness :
    (PermissionExtension.readSupportsSync extAsyncPassW).1 = false
    ∧ PermissionExtension.readSupportsSync
          (PermissionExtension.readSupportsSync extAsyncPassW).2
        = PermissionExtension.readSupportsSync extAsyncPassW := by
  have h := supports_sync_spec extAsyncPassW rfl
  exact ⟨h.1.mpr ⟨⟨CheckKind.async true, errW, none⟩, by decide, rfl⟩, h.2⟩

/-- C8: the `schema_directive` property allocates the directive object at
most once per `BasePermission` instance: accessing it a second time on the
instance produced by the first access returns the identical object with no
state or allocation change, and a second, distinct instance gets a directive
object with a different identity (keying is per instance, not per kind). -/
theorem schema_directive_memoized_per_instance (p q : BasePermissionObj) (n : Nat)
    (hp : p._schema_directive = none) (hq : q._schema_directive = none) :
    schema_directive (schema_directive p n).2.1 (schema_directive p n).2.2
        = schema_directive p n
    ∧ (schema_directive q (schema_directive p n).2.2).1.id
        ≠ (schema_directive p n).1.id := by
  constructor
  · simp [schema_directive, hp]
  · simp [schema_directive, hp, hq]

/-- Witness for C8 on two concrete permission instances of the same shape. -/
theorem schema_directive_memoized_per_instance_witness :
    schema_directive (schema_directive (⟨"IsAuthenticated", none⟩ : BasePermissionObj) 0).2.1
        (schema_directive (⟨"IsAuthenticated", none⟩ : BasePermissionObj) 0).2.2
      = schema_directive (⟨"IsAuthenticated", none⟩ : BasePermissionObj) 0
    ∧ (schema_directive (⟨"IsAuthenticated", none⟩ : BasePermissionObj)
          (schema_directive (⟨"IsAuthenticated", none⟩ : BasePermissionObj) 0).2.2).1.id
        ≠ (schema_directive (⟨"IsAuthenticated", none⟩ : BasePermissionObj) 0).1.id := by
  exact schema_directive_memoized_per_instance
    (⟨"IsAuthenticated", none⟩ : BasePermissionObj)
    (⟨"IsAuthenticated", none⟩ : BasePermissionObj) 0 rfl rfl

end Strawberry
